import Mathlib

/-!
Verification of the string-art generation engine (server core).

This file gives a shallow embedding of the parts of the engine referenced by
the specification claims and settles each claim against it.  The embedded
definitions are transcribed from the TypeScript sources:

* src/server/routes.ts — the StringArtEngine class (optimization driver,
  scorers, compositors, rasterizers, pin generation, preview rendering);
* src/server/face-detection.ts — region policies and effective min skip.

Numeric conventions: JavaScript floating-point arithmetic is modelled over
the rationals where the code performs field arithmetic, and over the reals
where the code uses transcendental functions (Math.pow with exponent 2.2,
trigonometric pin placement).  Math.floor is Int.floor, Math.round on
non-negative values is the Mathlib round (floor of x + 1/2), and Math.max
and Math.min are max and min.
-/

namespace StringArt

/-! ### Basic data model (src/shared/schema.ts) -/

/-- A thread connection between two pins, as in the shared schema.
The optional color fields are irrelevant for the endpoint claims and
are omitted. -/
structure ThreadConnection where
  fromPin : ℕ
  toPin : ℕ
deriving DecidableEq, Repr

/-- A pin placed on the frame perimeter: an index plus rounded integer
pixel coordinates, as in the shared schema. -/
structure Pin where
  index : ℕ
  x : ℤ
  y : ℤ
deriving DecidableEq, Repr

/-- Face region classification from src/server/face-detection.ts
(getRegionForPixel returns one of these three). -/
inductive Region where
  | face
  | body
  | background
deriving DecidableEq, Repr

/-- Quality preset from the generation parameter schema. -/
inductive QualityPreset where
  | fast
  | balanced
  | high
deriving DecidableEq, Repr

/-- Circular (modular) index distance between two pins, as computed at
every call site in routes.ts: dist = Math.abs(a - b),
wrapDist = pinCount - dist, and the distance used is min(dist, wrapDist). -/
def circularDistance (a b n : ℕ) : ℤ :=
  min (((a : ℤ) - b).natAbs : ℤ) ((n : ℤ) - (((a : ℤ) - b).natAbs : ℤ))

/-! ### Face region policies (src/server/face-detection.ts lines 189-225) -/

/-- getMinPinSkipForRegion: face = 2, body = 4, background 6/7/8 by quality
preset (high 6, balanced 7, fast or absent 8). -/
def getMinPinSkipForRegion (region : Region) (qualityPreset : Option QualityPreset) : ℕ :=
  match region with
  | Region.face => 2
  | Region.body => 4
  | Region.background =>
    match qualityPreset with
    | some QualityPreset.high => 6
    | some QualityPreset.balanced => 7
    | _ => 8

/-- getEffectiveMinSkip, transcribed from face-detection.ts lines 205-225:
if either region is the face, return 2 immediately; otherwise take the
max of the two region skips, and floor at baseMinSkip only when that
optional argument was supplied. -/
def getEffectiveMinSkip (currentRegion candidateRegion : Region)
    (qualityPreset : Option QualityPreset) (baseMinSkip : Option ℕ) : ℕ :=
  let currentSkip := getMinPinSkipForRegion currentRegion qualityPreset
  let candidateSkip := getMinPinSkipForRegion candidateRegion qualityPreset
  if currentRegion = Region.face ∨ candidateRegion = Region.face then 2
  else
    let regionMax := max currentSkip candidateSkip
    match baseMinSkip with
    | some base => max regionMax base
    | none => regionMax

/-- The claim's reading of effective_min_skip: face gives 2, otherwise the
max of the two endpoint policies, and in ALL cases the result is floored
at the configured min_pin_skip parameter. -/
def effectiveMinSkip_claim (currentRegion candidateRegion : Region)
    (qualityPreset : Option QualityPreset) (minPinSkip : ℕ) : ℕ :=
  let core :=
    if currentRegion = Region.face ∨ candidateRegion = Region.face then 2
    else max (getMinPinSkipForRegion currentRegion qualityPreset)
             (getMinPinSkipForRegion candidateRegion qualityPreset)
  max core minPinSkip

/-! ### Connection-list operations of the optimization phases -/

/-- Continuity of the thread: every adjacent pair of connections shares the
middle pin (spec property P3). -/
def chainOK : List ThreadConnection → Prop
  | [] => True
  | [_] => True
  | a :: b :: rest => a.toPin = b.fromPin ∧ chainOK (b :: rest)

instance instDecChainOK : (l : List ThreadConnection) → Decidable (chainOK l)
  | [] => inferInstanceAs (Decidable True)
  | [_] => inferInstanceAs (Decidable True)
  | a :: b :: rest =>
    haveI := instDecChainOK (b :: rest)
    inferInstanceAs (Decidable (a.toPin = b.fromPin ∧ chainOK (b :: rest)))

/-- The to pin of the last connection, or 0 for the empty list (the engine
initialises currentPin to 0). -/
def lastToPin (l : List ThreadConnection) : ℕ :=
  (l.getLast?.map ThreadConnection.toPin).getD 0

/-- Greedy placement step: applyLineWithColor (routes.ts lines 2703-2707)
pushes the connection from the current pin to the chosen pin and advances
currentPin to that pin.  Returns the new list and the new current pin. -/
def greedyAppend (conns : List ThreadConnection) (currentPin bestPin : ℕ) :
    List ThreadConnection × ℕ :=
  (conns ++ [⟨currentPin, bestPin⟩], bestPin)

/-- Candidate replacement pairs enumerated by runLocalRefinement
(routes.ts lines 3117-3146) for a connection (fromPin, toPin): option 1
keeps fromPin and ranges over every end pin at least minPinSkip away;
option 2 keeps toPin and ranges over the first min(pinCount, 50) start
pins at least minPinSkip away. -/
def refinementCandidates (pinCount minPinSkip fromPin toPin : ℕ) :
    List ThreadConnection :=
  (((List.range pinCount).filter
      (fun p => p ≠ fromPin ∧ (minPinSkip : ℤ) ≤ circularDistance p fromPin pinCount)).map
    (fun p => (⟨fromPin, p⟩ : ThreadConnection))) ++
  (((List.range (min pinCount 50)).filter
      (fun p => p ≠ toPin ∧ (minPinSkip : ℤ) ≤ circularDistance p toPin pinCount)).map
    (fun p => (⟨p, toPin⟩ : ThreadConnection)))

/-- Replacement performed by runLocalRefinement (routes.ts lines 3152-3163):
the winning candidate is applied (pushed at the end of the list), popped
off again, and written into slot idx of the list. -/
def refineReplace (conns : List ThreadConnection) (idx : ℕ)
    (c : ThreadConnection) : List ThreadConnection :=
  ((conns ++ [c]).dropLast).set idx c

/-- Removal step of runPerceptualBacktracking (routes.ts line 3358):
connections.splice(idx, 1) deletes the connection at idx. -/
def backtrackRemove (conns : List ThreadConnection) (idx : ℕ) :
    List ThreadConnection :=
  conns.eraseIdx idx

/-! ### Genetic mutation and greedy random fallback (claim C3) -/

/-- Per-connection mutation of runGeneticRefinement
(routes.ts lines 3243-3249): a uniformly random new to pin is adopted
whenever it differs from the from pin; no min-skip test is made. -/
def geneticMutate (c : ThreadConnection) (newToPin : ℕ) : ThreadConnection :=
  if newToPin ≠ c.fromPin then { c with toPin := newToPin } else c

/-- Last-resort random fallback pool of runAdvancedGreedyOptimization
(routes.ts lines 2057-2063): every pin other than the current one is a
candidate; no min-skip test is made. -/
def greedyRandomFallbackCandidates (pinCount currentPin : ℕ) : List ℕ :=
  (List.range pinCount).filter (fun i => i ≠ currentPin)

/-! ### LAB-interleaved color scorer combination (claim C4)

The per-pixel accumulations of evaluateColoredLine (delta-E improvement,
edge bonus, overdraw penalty, each already normalized by the line length)
are taken as rational inputs; the final combination transcribes
routes.ts lines 1624-1635.  The palette has 4 entries
(THREAD_COLOR_PALETTE). -/

/-- evaluateColoredLine final score assembly (routes.ts lines 1624-1635):
pinFatigue = 0.997 ^ pinUsageCount[toPin];
totalRecentThreads = (sum of recentColorCounts) + 1;
expectedUsage = totalRecentThreads / 4;
colorImbalance = max(0, (colorUsage - expected) / expected) * 0.1;
score = (0.65 acc + 0.20 edge - 0.10 overdraw - 0.05 imbalance) * fatigue. -/
def evaluateColoredLineCombine (colorAccuracyScore edgeScore overdrawPenalty : ℚ)
    (colorUsage totalRecentSum pinUsage : ℕ) : ℚ :=
  let pinFatigue : ℚ := (997 / 1000) ^ pinUsage
  let totalRecentThreads : ℚ := (totalRecentSum : ℚ) + 1
  let expectedUsage : ℚ := totalRecentThreads / 4
  let colorImbalance : ℚ :=
    max 0 (((colorUsage : ℚ) - expectedUsage) / expectedUsage) * (1 / 10)
  (65 / 100 * colorAccuracyScore + 20 / 100 * edgeScore
      - 10 / 100 * overdrawPenalty - 5 / 100 * colorImbalance) * pinFatigue

/-- The claim's score formula: color_imbalance = max(0, (usage - expected)
/ expected) with expected = total_threads_placed / 4, no extra factor. -/
def coloredLineScore_claim (colorAccuracyScore edgeScore overdrawPenalty : ℚ)
    (colorUsage totalPlaced pinUsage : ℕ) : ℚ :=
  let expected : ℚ := (totalPlaced : ℚ) / 4
  let imbalance : ℚ := max 0 (((colorUsage : ℚ) - expected) / expected)
  (65 / 100 * colorAccuracyScore + 20 / 100 * edgeScore
      - 10 / 100 * overdrawPenalty - 5 / 100 * imbalance) * (997 / 1000) ^ pinUsage

/-- Amended description of the same assembly: identical to the claim except
that the imbalance term carries an extra factor 1/10 and the expected
usage is (total placed + 1) / 4. -/
def coloredLineScore_amended (colorAccuracyScore edgeScore overdrawPenalty : ℚ)
    (colorUsage totalRecentSum pinUsage : ℕ) : ℚ :=
  let expected : ℚ := ((totalRecentSum : ℚ) + 1) / 4
  let imbalance : ℚ := max 0 (((colorUsage : ℚ) - expected) / expected) * (1 / 10)
  (65 / 100 * colorAccuracyScore + 20 / 100 * edgeScore
      - 10 / 100 * overdrawPenalty - 5 / 100 * imbalance) * (997 / 1000) ^ pinUsage

/-! ### Stage tables of the three-stage drivers (claim C5) -/

/-- One optimization stage: thread budget, per-thread opacity, min-skip
seed.  The cosmetic stage label is omitted. -/
structure Stage where
  threads : ℕ
  opacity : ℚ
  minSkip : ℕ
deriving DecidableEq, Repr

/-- Stage table of runInterleavedColorOptimization
(routes.ts lines 1388-1392): Structure floor(0.25 N) threads at
opacity 1.3 a and skip max(2, floor(P/8)); Mid Detail floor(0.35 N) at
1.1 a and max(2, floor(P/15)); Fine Detail floor(0.40 N) at 0.9 a and the
configured minPinSkip.  No clamp is applied to the opacities. -/
def interleavedStages (maxThreads : ℕ) (threadOpacity : ℚ)
    (minPinSkip pinCount : ℕ) : List Stage :=
  [ ⟨maxThreads / 4, threadOpacity * (13 / 10), max 2 (pinCount / 8)⟩,
    ⟨maxThreads * 7 / 20, threadOpacity * (11 / 10), max 2 (pinCount / 15)⟩,
    ⟨maxThreads * 2 / 5, threadOpacity * (9 / 10), minPinSkip⟩ ]

/-- Stage table of runMultiScaleOptimization (routes.ts lines 2141-2154):
Structure floor(0.25 N) threads at opacity min(0.5, 1.5 a) and skip
max(minPinSkip, floor(P/6)); Medium floor(0.35 N) at min(0.5, 1.1 a) and
max(minPinSkip, floor(P/15)); Detail the remaining threads at 0.8 a and
minPinSkip. -/
def multiScaleStages (maxThreads : ℕ) (threadOpacity : ℚ)
    (minPinSkip pinCount : ℕ) : List Stage :=
  let stage1Threads := maxThreads / 4
  let stage2Threads := maxThreads * 7 / 20
  let stage3Threads := maxThreads - stage1Threads - stage2Threads
  [ ⟨stage1Threads, min (1 / 2) (threadOpacity * (3 / 2)),
      max minPinSkip (pinCount / 6)⟩,
    ⟨stage2Threads, min (1 / 2) (threadOpacity * (11 / 10)),
      max minPinSkip (pinCount / 15)⟩,
    ⟨stage3Threads, threadOpacity * (4 / 5), minPinSkip⟩ ]

/-- The claim's stage table, common to both paths: thread shares
0.25/0.35/0.40 of N, min-skip seeds max(base, P/6) / max(base, P/15) /
base, opacity multipliers 1.3 (clamped at 0.5), 1.1 (clamped at 0.5),
0.8. -/
def stages_claim (maxThreads : ℕ) (threadOpacity : ℚ)
    (minPinSkip pinCount : ℕ) : List Stage :=
  [ ⟨maxThreads / 4, min (1 / 2) (threadOpacity * (13 / 10)),
      max minPinSkip (pinCount / 6)⟩,
    ⟨maxThreads * 7 / 20, min (1 / 2) (threadOpacity * (11 / 10)),
      max minPinSkip (pinCount / 15)⟩,
    ⟨maxThreads * 2 / 5, threadOpacity * (4 / 5), minPinSkip⟩ ]

/-! ### Preprocessing fallbacks (claim C7) -/

/-- An RGB pixel with integer channel values. -/
structure RGBPixel where
  r : ℤ
  g : ℤ
  b : ℤ
deriving DecidableEq, Repr

/-- Fallback of preprocessColorImage (routes.ts lines 3495-3503): on decode
failure, every pixel of the targetWidth x targetHeight image gets
val = Math.floor(Math.random() * 128) and r = g = b = val.  The random
draws are modelled as an input stream indexed by pixel position. -/
def colorFallbackData (rand : ℕ → ℚ) (targetWidth targetHeight : ℕ) :
    List RGBPixel :=
  (List.range (targetWidth * targetHeight)).map (fun i =>
    let val : ℤ := ⌊rand i * 128⌋
    ⟨val, val, val⟩)

/-- Fallback of preprocessImage (routes.ts lines 3421-3436): a radial
gradient of side size, value round(dist / maxDist * 255) at each pixel,
dist being the distance from the image centre and maxDist the corner
distance sqrt(2) * size / 2.  Deterministic in the requested size. -/
noncomputable def grayFallbackData (size : ℕ) : List ℤ :=
  (List.range (size * size)).map (fun i =>
    let x : ℝ := (i % size : ℕ)
    let y : ℝ := (i / size : ℕ)
    let centerX : ℝ := (size : ℝ) / 2
    let centerY : ℝ := (size : ℝ) / 2
    let dist : ℝ := Real.sqrt ((x - centerX) ^ 2 + (y - centerY) ^ 2)
    let maxDist : ℝ := Real.sqrt 2 * (size : ℝ) / 2
    round (dist / maxDist * 255))

/-! ### Density compositing (claim C8) -/

/-- Forward density update, identical in applyLineWithColor
(routes.ts lines 2680-2681), applyLineWithOpacity (lines 2772-2773) and
applyColoredLine (lines 1712-1715, with the per-channel maximum
absorption playing the role of the opacity):
density becomes density + opacity * (1 - density). -/
def forwardDensity (opacity oldDensity : ℚ) : ℚ :=
  oldDensity + opacity * (1 - oldDensity)

/-- Density revert of revertLine (routes.ts lines 2895-2896):
density becomes max(0, (density - opacity) / (1 - opacity)). -/
def revertDensity (opacity oldDensity : ℚ) : ℚ :=
  max 0 ((oldDensity - opacity) / (1 - opacity))

/-! ### Color blends of the compositor and the preview (claim C1) -/

/-- Per-channel blend of generateColorPreviewDataUrl
(routes.ts lines 4020-4022), on linear-light channel values:
blended = curr * (1 - opacity) + threadLin * opacity * curr. -/
def previewColorBlend (opacity threadLin currLin : ℚ) : ℚ :=
  currLin * (1 - opacity) + threadLin * opacity * currLin

/-- Per-channel subtractive blend of applyColoredLine
(routes.ts lines 1693-1700), on linear-light channel values:
absorb = (1 - threadLin) * opacity and blended = curr * (1 - absorb). -/
def subtractiveColorBlend (opacity threadLin currLin : ℚ) : ℚ :=
  currLin * (1 - (1 - threadLin) * opacity)

/-- Structure-stage opacity of runMultiScaleOptimization
(routes.ts line 2152): min(0.5, threadOpacity * 1.5). -/
def stage1OpacityMS (threadOpacity : ℚ) : ℚ :=
  min (1 / 2) (threadOpacity * (3 / 2))

/-- Monochrome forward composite of one thread on one pixel, transcribed
from applyLineWithOpacity (routes.ts lines 2758-2766): decode the byte to
linear light with exponent 2.2 = 11/5, multiply by (1 - opacity), encode
back with exponent 1/2.2 = 5/11, scale to 255, round and clamp below at
0.  The same formula with the base thread opacity is the claim's replay
composite (applyLineWithColor, lines 2666-2674). -/
noncomputable def applyLineMonoPixel (opacity : ℝ) (v : ℤ) : ℤ :=
  max 0 (round ((((v : ℝ) / 255) ^ ((11 : ℝ) / 5) * (1 - opacity)) ^ ((5 : ℝ) / 11) * 255))

/-! ### Bresenham rasterizers (claim C10) -/

/-- Guarded pixel push shared by both rasterizer loops: a pixel index
y * width + x is recorded only when 0 <= x < width and 0 <= y < height. -/
def bresPixel (width height x y : ℤ) : List ℤ :=
  if 0 ≤ x ∧ x < width ∧ 0 ≤ y ∧ y < height then [y * width + x] else []

/-- The Bresenham loop body common to bresenhamLine
(routes.ts lines 1054-1062) and getLinePixels (lines 3912-3943),
parameterized by the per-position pixel emission and driven by explicit
fuel; none signals fuel exhaustion before the endpoint was reached.
Per iteration: emit pixels at (x, y); stop if (x, y) is the endpoint;
otherwise with e2 = 2 err step x by sx and subtract dy from err when
e2 > -dy, then step y by sy and add dx to err when e2 < dx. -/
def bresRun (x1 y1 sx sy dx dy : ℤ) (emit : ℤ → ℤ → List ℤ) :
    ℕ → ℤ → ℤ → ℤ → Option (List ℤ)
  | 0, _, _, _ => none
  | fuel + 1, x, y, err =>
    let px := emit x y
    if x = x1 ∧ y = y1 then some px
    else
      let e2 := 2 * err
      let x2 := if e2 > -dy then x + sx else x
      let err1 := if e2 > -dy then err - dy else err
      let y2 := if e2 < dx then y + sy else y
      let err2 := if e2 < dx then err1 + dx else err1
      match bresRun x1 y1 sx sy dx dy emit fuel x2 y2 err2 with
      | none => none
      | some rest => some (px ++ rest)

/-- bresenhamLine (routes.ts lines 1042-1064) on integer endpoint
coordinates (the engine passes rounded pin coordinates): dx and dy are the
absolute coordinate differences, sx and sy the step signs, and the initial
error is dx - dy.  The fuel dx + dy + 1 is shown sufficient below. -/
def bresenhamLine (x0 y0 x1 y1 width height : ℤ) : Option (List ℤ) :=
  let dx := |x1 - x0|
  let dy := |y1 - y0|
  let sx : ℤ := if x0 < x1 then 1 else -1
  let sy : ℤ := if y0 < y1 then 1 else -1
  bresRun x1 y1 sx sy dx dy (bresPixel width height)
    (dx.toNat + dy.toNat + 1) x0 y0 (dx - dy)

/-- Pixel emission of getLinePixels (routes.ts lines 3912-3930): the core
Bresenham pixel plus perpendicular thickness pixels, each individually
bounds-guarded.  The perpendicular candidate coordinates (computed in the
source by rounding x + perpX * w for offsets w up to half the thread
width, with (perpX, perpY) the sqrt-normalized perpendicular) are
abstracted as the offsets argument, since they only feed guarded pushes;
the source additionally deduplicates through a Set, which affects
multiplicity but not membership. -/
def thickEmit (width height : ℤ) (offsets : ℤ → ℤ → List (ℤ × ℤ))
    (x y : ℤ) : List ℤ :=
  bresPixel width height x y ++
    ((offsets x y).filter
        (fun p => 0 ≤ p.1 ∧ p.1 < width ∧ 0 ≤ p.2 ∧ p.2 < height)).map
      (fun p => p.2 * width + p.1)

/-- The getLinePixels traversal (routes.ts lines 3873-3950): the same
Bresenham loop from the from-pin to the to-pin with thickness emission. -/
def getLinePixelsRun (x0 y0 x1 y1 width height : ℤ)
    (offsets : ℤ → ℤ → List (ℤ × ℤ)) : Option (List ℤ) :=
  let dx := |x1 - x0|
  let dy := |y1 - y0|
  let sx : ℤ := if x0 < x1 then 1 else -1
  let sy : ℤ := if y0 < y1 then 1 else -1
  bresRun x1 y1 sx sy dx dy (thickEmit width height offsets)
    (dx.toNat + dy.toNat + 1) x0 y0 (dx - dy)

/-! ### Pin generation (claim C9) -/

/-- Circular pin layout of generatePins (routes.ts lines 3608-3616):
pin i at angle 2 pi i / pinCount on the circle of radius
min(width, height) / 2 - 5 about the image centre, coordinates rounded. -/
noncomputable def generatePins_circular (width height pinCount : ℕ) : List Pin :=
  let centerX : ℝ := (width : ℝ) / 2
  let centerY : ℝ := (height : ℝ) / 2
  let radius : ℝ := (min width height : ℕ) / 2 - 5
  (List.range pinCount).map (fun (i : ℕ) =>
    let angle : ℝ := 2 * Real.pi * i / pinCount
    ⟨i, round (centerX + radius * Real.cos angle),
        round (centerY + radius * Real.sin angle)⟩)

/-- Circular layout of generatePinsWithFaceAwareness with no face box
(routes.ts lines 3584-3592): identical uniform distribution. -/
noncomputable def generatePinsFaceAware_noFace (width height pinCount : ℕ) : List Pin :=
  let centerX : ℝ := (width : ℝ) / 2
  let centerY : ℝ := (height : ℝ) / 2
  let radius : ℝ := (min width height : ℕ) / 2 - 5
  (List.range pinCount).map (fun (i : ℕ) =>
    let angle : ℝ := 2 * Real.pi * i / pinCount
    ⟨i, round (centerX + radius * Real.cos angle),
        round (centerY + radius * Real.sin angle)⟩)

/-- Rectangular pin layout of generatePins (routes.ts lines 3617-3653):
perSide = floor(pinCount / 4) pins per side with a 5-pixel margin, indexed
consecutively in perimeter order: top left-to-right, right top-to-bottom,
bottom right-to-left, left bottom-to-top. -/
def generatePins_rect (width height pinCount : ℕ) : List Pin :=
  let perSide := pinCount / 4
  let margin : ℚ := 5
  let w : ℚ := width
  let h : ℚ := height
  ((List.range perSide).map (fun i =>
      (⟨i, round (margin + ((w - 2 * margin) * i) / (perSide - 1 : ℕ)), 5⟩ : Pin))) ++
  ((List.range perSide).map (fun i =>
      (⟨perSide + i, (width : ℤ) - 5,
        round (margin + ((h - 2 * margin) * i) / (perSide - 1 : ℕ))⟩ : Pin))) ++
  ((List.range perSide).map (fun i =>
      (⟨2 * perSide + i,
        round (w - margin - ((w - 2 * margin) * i) / (perSide - 1 : ℕ)),
        (height : ℤ) - 5⟩ : Pin))) ++
  ((List.range perSide).map (fun i =>
      (⟨3 * perSide + i, 5,
        round (h - margin - ((h - 2 * margin) * i) / (perSide - 1 : ℕ))⟩ : Pin)))

/-- The claim's circular layout: pin i sits at angle 2 pi i / P on a circle
of radius min(W, H) / 2 - 5 about the image centre (W/2, H/2), with
integer-rounded pixel coordinates and index i. -/
noncomputable def circularPins_spec (width height pinCount : ℕ) : List Pin :=
  (List.range pinCount).map (fun (i : ℕ) =>
    let theta : ℝ := 2 * Real.pi * i / pinCount
    let r : ℝ := (min width height : ℕ) / 2 - 5
    ⟨i, round ((width : ℝ) / 2 + r * Real.cos theta),
        round ((height : ℝ) / 2 + r * Real.sin theta)⟩)

/-- The claim's rectangular layout: four sides, each carrying
floor(P/4) equally spaced pins with a 5-pixel margin, indexed
0 .. 4 * floor(P/4) - 1 in perimeter order.  Side k spans from its start
corner to its end corner in steps of (side length - 10) / (n - 1). -/
def rectPins_spec (width height pinCount : ℕ) : List Pin :=
  let n := pinCount / 4
  let w : ℚ := width
  let h : ℚ := height
  let step (len : ℚ) (i : ℕ) : ℚ := ((len - 10) * i) / (n - 1 : ℕ)
  ((List.range n).map (fun i => (⟨i, round (5 + step w i), 5⟩ : Pin))) ++
  ((List.range n).map (fun i =>
      (⟨n + i, (width : ℤ) - 5, round (5 + step h i)⟩ : Pin))) ++
  ((List.range n).map (fun i =>
      (⟨2 * n + i, round (w - 5 - step w i), (height : ℤ) - 5⟩ : Pin))) ++
  ((List.range n).map (fun i =>
      (⟨3 * n + i, 5, round (h - 5 - step h i)⟩ : Pin)))

/-! ### Amended descriptions used by corrected claims -/

/-- Amended effective min skip: the face case short-circuits to 2 and
ignores any configured floor; otherwise the max of the two region
policies, floored at baseMinSkip exactly when that optional argument is
supplied (the engine call sites in routes.ts never supply it). -/
def effectiveMinSkip_amended (currentRegion candidateRegion : Region)
    (qualityPreset : Option QualityPreset) (baseMinSkip : Option ℕ) : ℕ :=
  if currentRegion = Region.face ∨ candidateRegion = Region.face then 2
  else
    let regionMax := max (getMinPinSkipForRegion currentRegion qualityPreset)
                         (getMinPinSkipForRegion candidateRegion qualityPreset)
    match baseMinSkip with
    | some base => max regionMax base
    | none => regionMax

/-- Amended stage table of the LAB-interleaved path: shares
floor(0.25 N) / floor(0.35 N) / floor(0.40 N), opacity multipliers 1.3 /
1.1 / 0.9 with no clamp, min-skip seeds max(2, floor(P/8)) /
max(2, floor(P/15)) / the configured base. -/
def interleavedStages_amended (maxThreads : ℕ) (threadOpacity : ℚ)
    (minPinSkip pinCount : ℕ) : List Stage :=
  [ ⟨maxThreads / 4, threadOpacity * 1.3, max 2 (pinCount / 8)⟩,
    ⟨maxThreads * 7 / 20, threadOpacity * 1.1, max 2 (pinCount / 15)⟩,
    ⟨maxThreads * 2 / 5, threadOpacity * 0.9, minPinSkip⟩ ]

/-- Amended stage table of the high-preset monochrome path: shares
floor(0.25 N) / floor(0.35 N) / remainder, opacity multipliers 1.5
(clamped at 0.5) / 1.1 (clamped at 0.5) / 0.8, min-skip seeds
max(base, floor(P/6)) / max(base, floor(P/15)) / base. -/
def multiScaleStages_amended (maxThreads : ℕ) (threadOpacity : ℚ)
    (minPinSkip pinCount : ℕ) : List Stage :=
  [ ⟨maxThreads / 4, min 0.5 (threadOpacity * 1.5),
      max minPinSkip (pinCount / 6)⟩,
    ⟨maxThreads * 7 / 20, min 0.5 (threadOpacity * 1.1),
      max minPinSkip (pinCount / 15)⟩,
    ⟨maxThreads - maxThreads / 4 - maxThreads * 7 / 20,
      threadOpacity * 0.8, minPinSkip⟩ ]

/-! ## Theorems -/

/-! ### Shared helper lemmas -/

/-- Every region policy value is at least 2 (the face value). -/
theorem getMinPinSkipForRegion_ge_two (r : Region) (qp : Option QualityPreset) :
    2 ≤ getMinPinSkipForRegion r qp := by
  cases r <;> cases qp <;>
    first
      | decide
      | (rename_i p; cases p <;> decide)

/-- Every effective min skip is at least 2, the minimum region policy. -/
theorem getEffectiveMinSkip_ge_two (r1 r2 : Region) (qp : Option QualityPreset)
    (base : Option ℕ) : 2 ≤ getEffectiveMinSkip r1 r2 qp base := by
  unfold getEffectiveMinSkip
  by_cases hface : r1 = Region.face ∨ r2 = Region.face
  · simp [hface]
  · simp only [hface, if_false]
    cases base with
    | none => exact le_trans (getMinPinSkipForRegion_ge_two r1 qp) (le_max_left _ _)
    | some b =>
      exact le_trans (le_trans (getMinPinSkipForRegion_ge_two r1 qp)
        (le_max_left _ _)) (le_max_left _ _)

/-! ### Claim C2: thread continuity across phases -/

/-- Claim C2 counterexample.  The connection list [(0,5), (5,10), (10,15)]
is continuous; (5,12) is among the replacement candidates that
runLocalRefinement enumerates for the middle connection (5,10) with 100
pins and min skip 2 (option 1 keeps the from pin 5 and ranges over end
pins); writing the winning candidate into slot 1, exactly as the source
does, breaks continuity with the following connection, whose from pin
stays 10.  So local refinement does not preserve the adjacency property,
refuting the claim that every phase preserves it. -/
theorem c2_counterexample :
    chainOK [⟨0, 5⟩, ⟨5, 10⟩, ⟨10, 15⟩] ∧
    (⟨5, 12⟩ : ThreadConnection) ∈ refinementCandidates 100 2 5 10 ∧
    ¬ chainOK (refineReplace [⟨0, 5⟩, ⟨5, 10⟩, ⟨10, 15⟩] 1 ⟨5, 12⟩) := by
  decide

/-- Claim C2 amended: continuity holds for the phases that append a
connection from the current pin (the greedy placements): if the list is
continuous and its last to pin is the current pin, then appending the
connection (currentPin, bestPin) keeps it continuous and makes bestPin
the new last to pin.  Local refinement, annealing and backtracking mutate
or remove interior connections without repairing the neighbours, so the
final connection list need not be continuous (see the counterexample). -/
theorem c2_greedy_preserves_continuity (conns : List ThreadConnection)
    (cur b : ℕ) (h1 : chainOK conns) (h2 : lastToPin conns = cur) :
    chainOK (greedyAppend conns cur b).1 ∧
    lastToPin (greedyAppend conns cur b).1 = (greedyAppend conns cur b).2 := by
  unfold greedyAppend
  constructor
  · induction conns with
    | nil => simp [chainOK]
    | cons a rest ih =>
      cases rest with
      | nil =>
        simp only [List.cons_append, List.nil_append, chainOK]
        refine ⟨?_, trivial⟩
        simpa [lastToPin] using h2
      | cons c rest2 =>
        obtain ⟨hab, hrest⟩ := h1
        have h2' : lastToPin (c :: rest2) = cur := by
          simpa [lastToPin, List.getLast?] using h2
        exact ⟨hab, ih hrest h2'⟩
  · simp [lastToPin]

/-- Witness for the amended claim C2 at a concrete input. -/
theorem c2_witness :
    (chainOK [(⟨0, 5⟩ : ThreadConnection)] ∧ lastToPin [⟨0, 5⟩] = 5) ∧
    (chainOK (greedyAppend [⟨0, 5⟩] 5 9).1 ∧
      lastToPin (greedyAppend [⟨0, 5⟩] 5 9).1 = (greedyAppend [⟨0, 5⟩] 5 9).2) :=
  ⟨⟨by decide, by decide⟩,
    c2_greedy_preserves_continuity [⟨0, 5⟩] 5 9 (by decide) (by decide)⟩

/-! ### Claim C3: endpoint distinctness and min-skip -/

/-- Claim C3 counterexample.  The genetic mutation step accepts any new to
pin different from the from pin: mutating (0,5) with new to pin 1 yields
(0,1), whose circular distance on 100 pins is 1, strictly below 2 — and
every value of getEffectiveMinSkip is at least 2
(getEffectiveMinSkip_ge_two above), here instantiated at its minimum,
the face/face case.  The greedy last-resort random fallback likewise
admits pin 1 from pin 0.  So the min-skip bound does not survive the
genetic post-pass or the random fallback. -/
theorem c3_counterexample :
    geneticMutate ⟨0, 5⟩ 1 = ⟨0, 1⟩ ∧
    circularDistance 0 1 100 = 1 ∧
    circularDistance 0 1 100 <
      (getEffectiveMinSkip Region.face Region.face (some QualityPreset.high) none : ℤ) ∧
    1 ∈ greedyRandomFallbackCandidates 100 0 := by
  decide

/-- Claim C3 amended: every phase preserves from_pin distinct from to_pin —
the genetic mutation only adopts a new to pin when it differs from the
from pin, and the greedy random fallback pool excludes the current pin —
but neither operation enforces the min-skip lower bound. -/
theorem c3_from_ne_to_preserved (c : ThreadConnection) (n : ℕ)
    (hc : c.fromPin ≠ c.toPin) (m cur p : ℕ)
    (hp : p ∈ greedyRandomFallbackCandidates m cur) :
    (geneticMutate c n).fromPin ≠ (geneticMutate c n).toPin ∧ p ≠ cur := by
  constructor
  · unfold geneticMutate
    split
    · rename_i hne
      simpa using fun h => hne h.symm
    · exact hc
  · unfold greedyRandomFallbackCandidates at hp
    simpa using (List.mem_filter.mp hp).2

/-- Witness for the amended claim C3 at a concrete input. -/
theorem c3_witness :
    ((⟨0, 5⟩ : ThreadConnection).fromPin ≠ (⟨0, 5⟩ : ThreadConnection).toPin) ∧
    (1 ∈ greedyRandomFallbackCandidates 100 0) ∧
    ((geneticMutate ⟨0, 5⟩ 1).fromPin ≠ (geneticMutate ⟨0, 5⟩ 1).toPin ∧ 1 ≠ 0) :=
  ⟨by decide, by decide,
    c3_from_ne_to_preserved ⟨0, 5⟩ 1 (by decide) 100 0 1 (by decide)⟩

/-! ### Claim C4: LAB-interleaved color score formula -/

/-- Claim C4 counterexample.  With all per-pixel accumulators zero, this
color used 4 times out of 4 placed threads, and to-pin usage 0, the
source score is -11/1000 while the claimed formula gives -3/20: the
source multiplies the imbalance by an extra 0.1 and computes the
expected usage from (total placed + 1) / 4 instead of total placed / 4. -/
theorem c4_counterexample :
    evaluateColoredLineCombine 0 0 0 4 4 0 = -11 / 1000 ∧
    coloredLineScore_claim 0 0 0 4 4 0 = -3 / 20 ∧
    evaluateColoredLineCombine 0 0 0 4 4 0 ≠ coloredLineScore_claim 0 0 0 4 4 0 := by
  norm_num [evaluateColoredLineCombine, coloredLineScore_claim]

/-- Claim C4 amended: the score equals
(0.65 dE + 0.20 edge - 0.10 overdraw - 0.05 imbalance) * 0.997 ^ usage_to
where imbalance = max(0, (usage - expected) / expected) * 0.1 and
expected = (total placed + 1) / 4 — i.e. the claim's formula with the
extra 0.1 factor inside the imbalance term and the off-by-one expected
count (face-overlap boosts, applied afterwards when a face mask exists,
remain outside this formula). -/
theorem c4_score_formula (acc edge od : ℚ) (colorUsage totalRecentSum pinUsage : ℕ) :
    evaluateColoredLineCombine acc edge od colorUsage totalRecentSum pinUsage =
      coloredLineScore_amended acc edge od colorUsage totalRecentSum pinUsage := rfl

/-! ### Claim C5: three-stage driver tables -/

/-- Claim C5 counterexample.  At N = 10000 threads, base opacity 0.12, base
min skip 2 and 400 pins: the interleaved table differs from the claimed
table already in the structure-stage min-skip seed (max(2, 400/8) = 50
against the claimed max(2, 400/6) = 66), and the multi-scale table
differs in the structure-stage opacity (min(0.5, 0.12 * 1.5) = 9/50
against the claimed min(0.5, 0.12 * 1.3) = 39/250). -/
theorem c5_counterexample :
    interleavedStages 10000 (12 / 100) 2 400 ≠ stages_claim 10000 (12 / 100) 2 400 ∧
    multiScaleStages 10000 (12 / 100) 2 400 ≠ stages_claim 10000 (12 / 100) 2 400 := by
  constructor
  · intro h
    have h2 := congrArg (fun l => l.map Stage.minSkip) h
    norm_num [interleavedStages, stages_claim] at h2
  · intro h
    have h2 := congrArg (fun l => l.map Stage.opacity) h
    norm_num [multiScaleStages, stages_claim, min_def] at h2

/-- Claim C5 amended: the interleaved color path places
floor(0.25 N) / floor(0.35 N) / floor(0.40 N) threads with unclamped
opacity multipliers 1.3 / 1.1 / 0.9 and min-skip seeds max(2, P/8) /
max(2, P/15) / base; the high-preset monochrome path places
floor(0.25 N) / floor(0.35 N) / remainder threads with opacity
multipliers 1.5 and 1.1 (both clamped at 0.5) and 0.8, and min-skip
seeds max(base, P/6) / max(base, P/15) / base. -/
theorem c5_stage_tables (maxThreads : ℕ) (threadOpacity : ℚ)
    (minPinSkip pinCount : ℕ) :
    interleavedStages maxThreads threadOpacity minPinSkip pinCount =
      interleavedStages_amended maxThreads threadOpacity minPinSkip pinCount ∧
    multiScaleStages maxThreads threadOpacity minPinSkip pinCount =
      multiScaleStages_amended maxThreads threadOpacity minPinSkip pinCount := by
  constructor <;> norm_num [interleavedStages, interleavedStages_amended,
    multiScaleStages, multiScaleStages_amended]

/-! ### Claim C6: effective min skip -/

/-- Claim C6 counterexample.  With both endpoints in the face region,
quality preset high and configured min_pin_skip 5 (admissible range
1..50), the source returns 2 while the claimed formula — floored at the
configured min_pin_skip in all cases — gives 5. -/
theorem c6_counterexample :
    getEffectiveMinSkip Region.face Region.face (some QualityPreset.high) (some 5) = 2 ∧
    effectiveMinSkip_claim Region.face Region.face (some QualityPreset.high) 5 = 5 ∧
    getEffectiveMinSkip Region.face Region.face (some QualityPreset.high) (some 5) ≠
      effectiveMinSkip_claim Region.face Region.face (some QualityPreset.high) 5 := by
  decide

/-- Claim C6 amended: effective_min_skip returns 2 when either endpoint is
in the face region regardless of the configured min_pin_skip; otherwise
it returns the maximum of the two endpoint region policies, floored at
the baseMinSkip argument only when that optional argument is supplied —
and the engine call sites never supply it. -/
theorem c6_effective_min_skip (r1 r2 : Region) (qp : Option QualityPreset)
    (base : Option ℕ) :
    getEffectiveMinSkip r1 r2 qp base = effectiveMinSkip_amended r1 r2 qp base := rfl

/-! ### Claim C7: preprocessing fallbacks -/

/-- Claim C7 counterexample.  The color preprocessing fallback samples
Math.random() per pixel: with the all-zero random stream every fallback
pixel is (0,0,0), while with the constant 1/2 stream every pixel is
(64,64,64) — the outputs differ, so the color-path fallback is not a
deterministic function of the input bytes and crop, refuting the claim
for the color preprocessing path. -/
theorem c7_counterexample :
    colorFallbackData (fun _ => 0) 2 2 ≠ colorFallbackData (fun _ => 1 / 2) 2 2 := by
  simp [colorFallbackData, List.range_succ]
  norm_num

/-- Claim C7 amended: the grayscale path's fallback is a deterministic
radial gradient of the requested size (grayFallbackData, a pure function
of the size alone); the color path's fallback instead fills the requested
w x h frame with per-pixel random gray values r = g = b =
floor(random * 128), so it is a gradient-free noise image that depends on
the random draws. -/
theorem c7_fallback_shape (rand : ℕ → ℚ) (w h : ℕ) (p : RGBPixel)
    (hp : p ∈ colorFallbackData rand w h) :
    (colorFallbackData rand w h).length = w * h ∧
    (grayFallbackData (w * h)).length = (w * h) * (w * h) ∧
    p.r = p.g ∧ p.g = p.b := by
  refine ⟨by simp [colorFallbackData], by simp [grayFallbackData], ?_⟩
  simp only [colorFallbackData, List.mem_map] at hp
  obtain ⟨i, _, rfl⟩ := hp
  exact ⟨rfl, rfl⟩

/-- Witness for the amended claim C7 at a concrete input. -/
theorem c7_witness :
    ((⟨0, 0, 0⟩ : RGBPixel) ∈ colorFallbackData (fun _ => 0) 1 1) ∧
    ((colorFallbackData (fun _ => 0) 1 1).length = 1 * 1 ∧
      (grayFallbackData (1 * 1)).length = (1 * 1) * (1 * 1) ∧
      (⟨0, 0, 0⟩ : RGBPixel).r = (⟨0, 0, 0⟩ : RGBPixel).g ∧
      (⟨0, 0, 0⟩ : RGBPixel).g = (⟨0, 0, 0⟩ : RGBPixel).b) := by
  have hp : (⟨0, 0, 0⟩ : RGBPixel) ∈ colorFallbackData (fun _ => 0) 1 1 := by
    simp [colorFallbackData, List.range_succ]
  exact ⟨hp, c7_fallback_shape (fun _ => 0) 1 1 ⟨0, 0, 0⟩ hp⟩

/-! ### Claim C10: termination and bounds of the Bresenham rasterizers -/

/-- In-bounds coordinates give an index inside the pixel array. -/
theorem pixelIndex_bounds (width height x y : ℤ)
    (hx0 : 0 ≤ x) (hxw : x < width) (hy0 : 0 ≤ y) (hyh : y < height) :
    0 ≤ y * width + x ∧ y * width + x < width * height := by
  constructor
  · have : 0 ≤ y * width := mul_nonneg hy0 (by omega)
    omega
  · nlinarith [mul_le_mul_of_nonneg_right (show y ≤ height - 1 by omega)
      (show (0:ℤ) ≤ width by omega)]

/-- The guarded pixel push only produces in-bounds indices. -/
theorem bresPixel_bounds (width height x y : ℤ) :
    ∀ idx ∈ bresPixel width height x y, 0 ≤ idx ∧ idx < width * height := by
  intro idx hidx
  unfold bresPixel at hidx
  split at hidx
  · rename_i hcond
    obtain ⟨h1, h2, h3, h4⟩ := hcond
    simp only [List.mem_singleton] at hidx
    subst hidx
    exact pixelIndex_bounds width height x y h1 h2 h3 h4
  · simp at hidx

/-- The thickness emission of getLinePixels only produces in-bounds
indices: the core pixel is guarded and every perpendicular candidate is
individually bounds-filtered. -/
theorem thickEmit_bounds (width height : ℤ) (offsets : ℤ → ℤ → List (ℤ × ℤ))
    (x y : ℤ) :
    ∀ idx ∈ thickEmit width height offsets x y, 0 ≤ idx ∧ idx < width * height := by
  intro idx hidx
  rcases List.mem_append.mp hidx with h | h
  · exact bresPixel_bounds width height x y idx h
  · obtain ⟨p, hp, rfl⟩ := List.mem_map.mp h
    have hc := (List.mem_filter.mp hp).2
    simp only [decide_eq_true_eq] at hc
    obtain ⟨h1, h2, h3, h4⟩ := hc
    exact pixelIndex_bounds width height p.1 p.2 h1 h2 h3 h4

/-- Totality of the Bresenham loop: with fuel exceeding the remaining
step count the loop reaches the endpoint, and every emitted pixel index
satisfies the emission bound.  The invariant carries the remaining step
counts u and v with x = x1 - sx u, y = y1 - sy v and
err = dx - dy + u dy - v dx; each iteration strictly decreases u + v,
and neither coordinate ever oversteps its endpoint. -/
theorem bresRun_total (x1 y1 sx sy dx dy : ℤ) (emit : ℤ → ℤ → List ℤ)
    (P : ℤ → Prop) (hemit : ∀ x y, ∀ idx ∈ emit x y, P idx)
    (hdx : 0 ≤ dx) (hdy : 0 ≤ dy)
    (hsx : sx = 1 ∨ sx = -1) (hsy : sy = 1 ∨ sy = -1) :
    ∀ (fuel : ℕ) (u v : ℤ), 0 ≤ u → u ≤ dx → 0 ≤ v → v ≤ dy →
      u + v < (fuel : ℤ) →
      ∃ l, bresRun x1 y1 sx sy dx dy emit fuel (x1 - sx * u) (y1 - sy * v)
              (dx - dy + u * dy - v * dx) = some l ∧ ∀ idx ∈ l, P idx := by
  intro fuel
  induction fuel with
  | zero =>
    intro u v hu0 _ hv0 _ hlt
    exfalso
    push_cast at hlt
    omega
  | succ n ih =>
    intro u v hu0 hud hv0 hvd hlt
    by_cases hend : x1 - sx * u = x1 ∧ y1 - sy * v = y1
    · refine ⟨emit (x1 - sx * u) (y1 - sy * v), ?_, hemit _ _⟩
      simp only [bresRun, hend, and_self, if_true]
    · have hsx0 : sx ≠ 0 := by rcases hsx with h | h <;> omega
      have hsy0 : sy ≠ 0 := by rcases hsy with h | h <;> omega
      have hne : ¬ (u = 0 ∧ v = 0) := by
        rintro ⟨rfl, rfl⟩
        exact hend (by constructor <;> ring)
      set x := x1 - sx * u with hxdef
      set y := y1 - sy * v with hydef
      set err := dx - dy + u * dy - v * dx with herrdef
      have hstep : (2 * err > -dy → 1 ≤ u) ∧ (2 * err < dx → 1 ≤ v) ∧
          (2 * err > -dy ∨ 2 * err < dx) := by
        refine ⟨?_, ?_, ?_⟩
        · intro hc
          by_contra hu1
          have hu : u = 0 := by omega
          have hv : 1 ≤ v := by
            rcases Decidable.em (v = 0) with h | h
            · exact absurd ⟨hu, h⟩ hne
            · omega
          rw [herrdef, hu] at hc
          nlinarith [mul_nonneg (sub_nonneg.mpr hv) hdx]
        · intro hc
          by_contra hv1
          have hv : v = 0 := by omega
          have hu : 1 ≤ u := by
            rcases Decidable.em (u = 0) with h | h
            · exact absurd ⟨h, hv⟩ hne
            · omega
          rw [herrdef, hv] at hc
          nlinarith [mul_nonneg (sub_nonneg.mpr hu) hdy]
        · by_contra hboth
          push_neg at hboth
          obtain ⟨h1, h2⟩ := hboth
          have hdx0 : dx = 0 := by omega
          have hdy0 : dy = 0 := by omega
          exact hne ⟨by omega, by omega⟩
      obtain ⟨hX, hY, hXY⟩ := hstep
      rw [show (bresRun x1 y1 sx sy dx dy emit (n+1) x y err) =
        (let px := emit x y
         if x = x1 ∧ y = y1 then some px
         else
           let e2 := 2 * err
           let x2 := if e2 > -dy then x + sx else x
           let err1 := if e2 > -dy then err - dy else err
           let y2 := if e2 < dx then y + sy else y
           let err2 := if e2 < dx then err1 + dx else err1
           match bresRun x1 y1 sx sy dx dy emit n x2 y2 err2 with
           | none => none
           | some rest => some (px ++ rest)) from rfl]
      simp only [hend, if_false]
      by_cases cX : 2 * err > -dy <;> by_cases cY : 2 * err < dx
      · have hu1 := hX cX
        have hv1 := hY cY
        obtain ⟨l, hl, hlP⟩ := ih (u - 1) (v - 1) (by omega) (by omega)
          (by omega) (by omega) (by push_cast at hlt ⊢; omega)
        refine ⟨emit x y ++ l, ?_, ?_⟩
        · simp only [cX, cY, if_true]
          rw [show x + sx = x1 - sx * (u - 1) by
                rw [hxdef]; rcases hsx with h | h <;> rw [h] <;> ring,
              show y + sy = y1 - sy * (v - 1) by
                rw [hydef]; rcases hsy with h | h <;> rw [h] <;> ring,
              show err - dy + dx = dx - dy + (u - 1) * dy - (v - 1) * dx by
                rw [herrdef]; ring]
          rw [hl]
        · intro idx hidx
          rcases List.mem_append.mp hidx with h | h
          · exact hemit _ _ idx h
          · exact hlP idx h
      · have hu1 := hX cX
        obtain ⟨l, hl, hlP⟩ := ih (u - 1) v (by omega) (by omega) hv0 hvd
          (by push_cast at hlt ⊢; omega)
        refine ⟨emit x y ++ l, ?_, ?_⟩
        · simp only [cX, cY, if_true, if_false]
          rw [show x + sx = x1 - sx * (u - 1) by
                rw [hxdef]; rcases hsx with h | h <;> rw [h] <;> ring,
              show err - dy = dx - dy + (u - 1) * dy - v * dx by
                rw [herrdef]; ring]
          rw [hl]
        · intro idx hidx
          rcases List.mem_append.mp hidx with h | h
          · exact hemit _ _ idx h
          · exact hlP idx h
      · have hv1 := hY cY
        obtain ⟨l, hl, hlP⟩ := ih u (v - 1) hu0 hud (by omega) (by omega)
          (by push_cast at hlt ⊢; omega)
        refine ⟨emit x y ++ l, ?_, ?_⟩
        · simp only [cX, cY, if_true, if_false]
          rw [show y + sy = y1 - sy * (v - 1) by
                rw [hydef]; rcases hsy with h | h <;> rw [h] <;> ring,
              show err + dx = dx - dy + u * dy - (v - 1) * dx by
                rw [herrdef]; ring]
          rw [hl]
        · intro idx hidx
          rcases List.mem_append.mp hidx with h | h
          · exact hemit _ _ idx h
          · exact hlP idx h
      · exact absurd hXY (by push_neg; exact ⟨by omega, by omega⟩)

/-- The initial point is the endpoint minus the full remaining step count
in the Bresenham step direction. -/
theorem bres_start (x0 x1 : ℤ) :
    x0 = x1 - (if x0 < x1 then (1:ℤ) else -1) * |x1 - x0| := by
  by_cases h : x0 < x1
  · rw [if_pos h, abs_of_nonneg (by omega : (0:ℤ) ≤ x1 - x0)]; ring
  · rw [if_neg h, abs_of_nonpos (by omega : x1 - x0 ≤ 0)]; ring

/-- Totality and in-bounds pixels for any emission satisfying the bound,
at the actual initial state and fuel used by the two rasterizers. -/
theorem bresTraversal_total (x0 y0 x1 y1 width height : ℤ)
    (emit : ℤ → ℤ → List ℤ)
    (hemit : ∀ x y, ∀ idx ∈ emit x y, 0 ≤ idx ∧ idx < width * height) :
    ∃ l, bresRun x1 y1 (if x0 < x1 then (1:ℤ) else -1)
        (if y0 < y1 then (1:ℤ) else -1) (|x1 - x0|) (|y1 - y0|) emit
        ((|x1 - x0|).toNat + (|y1 - y0|).toNat + 1) x0 y0
        (|x1 - x0| - |y1 - y0|) = some l ∧
      ∀ idx ∈ l, 0 ≤ idx ∧ idx < width * height := by
  have habs : ∀ z : ℤ, (0:ℤ) ≤ |z| := fun z => abs_nonneg z
  have h := bresRun_total x1 y1 (if x0 < x1 then (1:ℤ) else -1)
    (if y0 < y1 then (1:ℤ) else -1) (|x1 - x0|) (|y1 - y0|) emit
    (fun idx => 0 ≤ idx ∧ idx < width * height) hemit (habs _) (habs _)
    (by split <;> simp) (by split <;> simp)
    ((|x1 - x0|).toNat + (|y1 - y0|).toNat + 1) (|x1 - x0|) (|y1 - y0|)
    (habs _) le_rfl (habs _) le_rfl
    (by
      push_cast [Int.toNat_of_nonneg (habs (x1 - x0)),
        Int.toNat_of_nonneg (habs (y1 - y0))]
      omega)
  rw [← bres_start x0 x1, ← bres_start y0 y1] at h
  have herr : |x1 - x0| - |y1 - y0| =
      |x1 - x0| - |y1 - y0| + |x1 - x0| * |y1 - y0| - |y1 - y0| * |x1 - x0| := by
    ring
  rw [← herr] at h
  exact h

/-- Claim C10 (confirmed): both Bresenham rasterizers terminate for every
pair of integer endpoint coordinates, every image width and height and
every perpendicular-offset choice — each reaches its endpoint within fuel
dx + dy + 1, never looping, even for coincident pins (dx = dy = 0) or
endpoints outside the image — and every pixel index they return lies in
[0, width * height). -/
theorem c10_rasterizers_terminate_inbounds (x0 y0 x1 y1 width height : ℤ)
    (offsets : ℤ → ℤ → List (ℤ × ℤ)) :
    (∃ l, bresenhamLine x0 y0 x1 y1 width height = some l ∧
        ∀ idx ∈ l, 0 ≤ idx ∧ idx < width * height) ∧
    (∃ l, getLinePixelsRun x0 y0 x1 y1 width height offsets = some l ∧
        ∀ idx ∈ l, 0 ≤ idx ∧ idx < width * height) := by
  constructor
  · exact bresTraversal_total x0 y0 x1 y1 width height
      (bresPixel width height) (bresPixel_bounds width height)
  · exact bresTraversal_total x0 y0 x1 y1 width height
      (thickEmit width height offsets) (thickEmit_bounds width height offsets)

/-- Witness for claim C10 at a concrete line and image size. -/
theorem c10_witness :
    (∃ l, bresenhamLine 0 0 3 2 10 10 = some l ∧
        ∀ idx ∈ l, 0 ≤ idx ∧ idx < 10 * 10) ∧
    (∃ l, getLinePixelsRun 0 0 3 2 10 10 (fun _ _ => []) = some l ∧
        ∀ idx ∈ l, 0 ≤ idx ∧ idx < 10 * 10) :=
  c10_rasterizers_terminate_inbounds 0 0 3 2 10 10 (fun _ _ => [])

/-! ### Claim C1: replay reproducibility of the preview -/

/-- Bounds for the gamma-encoding exponent 1/2.2 = 5/11: raising both
sides to the 11th power reduces the comparison to rational arithmetic. -/
theorem rpow511_bounds (x a b : ℝ) (hx : 0 ≤ x) (_ha : 0 ≤ a) (hb : 0 ≤ b)
    (h1 : a ^ (11:ℕ) ≤ x ^ (5:ℕ)) (h2 : x ^ (5:ℕ) < b ^ (11:ℕ)) :
    a ≤ x ^ ((5:ℝ)/11) ∧ x ^ ((5:ℝ)/11) < b := by
  have hy : (0:ℝ) ≤ x ^ ((5:ℝ)/11) := Real.rpow_nonneg hx _
  have hkey : (x ^ ((5:ℝ)/11)) ^ (11:ℕ) = x ^ (5:ℕ) := by
    rw [← Real.rpow_natCast (x ^ ((5:ℝ)/11)) 11, ← Real.rpow_mul hx]
    norm_num
    exact_mod_cast Real.rpow_natCast x 5
  constructor
  · apply le_of_pow_le_pow_left₀ (by norm_num : (11:ℕ) ≠ 0) hy
    rw [hkey]; exact h1
  · apply lt_of_pow_lt_pow_left₀ 11 hb
    rw [hkey]; exact h2

/-- One structure-stage thread of the high-preset monochrome driver turns
a white pixel into byte 233 (opacity min(0.5, 0.12 * 1.5) = 9/50). -/
theorem applyLineMonoPixel_stage_eval : applyLineMonoPixel ((9:ℝ)/50) 255 = 233 := by
  unfold applyLineMonoPixel
  have hbase : (((255:ℤ) : ℝ) / 255) ^ ((11 : ℝ) / 5) * (1 - (9:ℝ)/50) = 41/50 := by
    norm_num [Real.one_rpow]
  rw [hbase]
  obtain ⟨hlo, hhi⟩ := rpow511_bounds (41/50) (465/510) (467/510)
    (by norm_num) (by norm_num) (by norm_num) (by norm_num) (by norm_num)
  have hr : round ((41/50:ℝ) ^ ((5:ℝ)/11) * 255) = 233 := by
    rw [round_eq]
    rw [Int.floor_eq_iff]
    constructor
    · push_cast; nlinarith
    · push_cast; nlinarith
  rw [hr]
  norm_num

/-- Replaying a thread at the base opacity 0.12 turns a white pixel into
byte 241. -/
theorem applyLineMonoPixel_base_eval : applyLineMonoPixel ((12:ℝ)/100) 255 = 241 := by
  unfold applyLineMonoPixel
  have hbase : (((255:ℤ) : ℝ) / 255) ^ ((11 : ℝ) / 5) * (1 - (12:ℝ)/100) = 22/25 := by
    norm_num [Real.one_rpow]
  rw [hbase]
  obtain ⟨hlo, hhi⟩ := rpow511_bounds (22/25) (481/510) (483/510)
    (by norm_num) (by norm_num) (by norm_num) (by norm_num) (by norm_num)
  have hr : round ((22/25:ℝ) ^ ((5:ℝ)/11) * 255) = 241 := by
    rw [round_eq]
    rw [Int.floor_eq_iff]
    constructor
    · push_cast; nlinarith
    · push_cast; nlinarith
  rw [hr]
  norm_num

/-- Claim C1 counterexample.  In the high-preset monochrome path the
structure stage composites with opacity min(0.5, 1.5 * threadOpacity):
at the default threadOpacity 0.12 that is 9/50, and a single structure
thread over a white pixel yields byte 233 on the progress canvas — which
the monochrome preview copies verbatim — while the claim's replay of the
same connection with params.thread_opacity = 0.12 yields byte 241.  The
two bitmaps differ at every white pixel of the first structure thread, so
the preview is not byte-for-byte reproducible by the uniform-opacity
replay in monochrome mode. -/
theorem c1_counterexample :
    ((stage1OpacityMS (12 / 100) : ℚ) : ℝ) = 9 / 50 ∧
    applyLineMonoPixel ((9:ℝ) / 50) 255 = 233 ∧
    applyLineMonoPixel ((12:ℝ) / 100) 255 = 241 ∧
    applyLineMonoPixel (((stage1OpacityMS (12 / 100) : ℚ)) : ℝ) 255 ≠
      applyLineMonoPixel ((12:ℝ) / 100) 255 := by
  have hcast : ((stage1OpacityMS (12 / 100) : ℚ) : ℝ) = 9 / 50 := by
    norm_num [stage1OpacityMS, min_def]
  refine ⟨hcast, applyLineMonoPixel_stage_eval, applyLineMonoPixel_base_eval, ?_⟩
  rw [hcast, applyLineMonoPixel_stage_eval, applyLineMonoPixel_base_eval]
  decide

/-- Claim C1 amended: in LAB-color mode the preview is reproducible — it is
computed exactly as the claim's replay (fresh white canvas, connection
order, stored colors, params.thread_opacity), and its per-channel overlay
blend curr (1 - a) + thread a curr coincides identically with the
engine's subtractive compositor curr (1 - (1 - thread) a), proved here on
linear-light channel values; in monochrome mode the preview copies the
progress canvas, which under the high preset is composited with
stage-specific opacities min(0.5, 1.5 a) / min(0.5, 1.1 a) / 0.8 a, so a
replay at the uniform thread_opacity does not reproduce it (see the
counterexample). -/
theorem c1_preview_blend_equivalence (opacity threadLin currLin : ℚ) :
    previewColorBlend opacity threadLin currLin =
      subtractiveColorBlend opacity threadLin currLin := by
  unfold previewColorBlend subtractiveColorBlend
  ring

/-! ### Claim C9: pin placement -/

/-- Four consecutive blocks of n consecutive indices cover 0 .. 4n - 1. -/
theorem range'_quad (n : ℕ) :
    List.range' 0 n ++ List.range' n n ++ List.range' (2 * n) n ++
      List.range' (3 * n) n = List.range' 0 (4 * n) := by
  have h12 := List.range'_append 0 n n 1
  rw [show 0 + 1 * n = n by ring] at h12
  have h123 := List.range'_append 0 (n + n) n 1
  rw [show 0 + 1 * (n + n) = 2 * n by ring] at h123
  have h1234 := List.range'_append 0 (n + (n + n)) n 1
  rw [show 0 + 1 * (n + (n + n)) = 3 * n by ring] at h1234
  rw [h12, h123, h1234]
  congr 1
  ring

/-- Rectangular pins carry the indices 0 .. 4 * floor(P/4) - 1 in
perimeter order. -/
theorem generatePins_rect_indices (width height pinCount : ℕ) :
    (generatePins_rect width height pinCount).map Pin.index =
      List.range (4 * (pinCount / 4)) := by
  simp only [generatePins_rect, List.map_append, List.map_map, Function.comp_def]
  have hmap : ∀ k : ℕ, (List.range (pinCount / 4)).map (fun i => k + i) =
      List.range' k (pinCount / 4) := by
    intro k
    rw [List.range_eq_range']
    have h := List.map_add_range' k 0 (pinCount / 4) 1
    rw [Nat.add_zero] at h
    exact h
  show (List.range (pinCount / 4)).map (fun i => i) ++
      (List.range (pinCount / 4)).map (fun i => pinCount / 4 + i) ++
      (List.range (pinCount / 4)).map (fun i => 2 * (pinCount / 4) + i) ++
      (List.range (pinCount / 4)).map (fun i => 3 * (pinCount / 4) + i) =
      List.range (4 * (pinCount / 4))
  rw [List.map_id', hmap, hmap, hmap, List.range_eq_range']
  have hq := range'_quad (pinCount / 4)
  rw [show List.range' (pinCount / 4) (pinCount / 4) =
      List.range' (1 * (pinCount / 4)) (pinCount / 4) by rw [one_mul]] at hq ⊢
  rw [List.range_eq_range' (4 * (pinCount / 4))]
  exact hq

/-- Claim C9 (confirmed): for circular frames both pin generators place pin
i at angle 2 pi i / P on the circle of radius min(W, H) / 2 - 5 about the
image centre (when no face is detected); for rectangular frames the
perimeter carries 4 * floor(P/4) pins — floor(P/4) equally spaced pins per
side with a 5-pixel margin — indexed 0 .. count - 1 in perimeter order. -/
theorem c9_pin_placement (width height pinCount : ℕ) :
    generatePins_circular width height pinCount =
      circularPins_spec width height pinCount ∧
    generatePinsFaceAware_noFace width height pinCount =
      circularPins_spec width height pinCount ∧
    generatePins_rect width height pinCount =
      rectPins_spec width height pinCount ∧
    (generatePins_rect width height pinCount).length = 4 * (pinCount / 4) ∧
    (generatePins_rect width height pinCount).map Pin.index =
      List.range (4 * (pinCount / 4)) := by
  refine ⟨rfl, rfl, ?_, ?_, generatePins_rect_indices width height pinCount⟩
  · unfold generatePins_rect rectPins_spec
    norm_num
  · simp [generatePins_rect]
    ring

/-- Witness for claim C9 at a concrete frame. -/
theorem c9_witness :
    generatePins_circular 512 512 400 = circularPins_spec 512 512 400 ∧
    generatePinsFaceAware_noFace 512 512 400 = circularPins_spec 512 512 400 ∧
    generatePins_rect 512 512 400 = rectPins_spec 512 512 400 ∧
    (generatePins_rect 512 512 400).length = 4 * (400 / 4) ∧
    (generatePins_rect 512 512 400).map Pin.index = List.range (4 * (400 / 4)) :=
  c9_pin_placement 512 512 400

/-! ### Claim C8: density stays in the unit interval -/

/-- Claim C8 (confirmed): for opacity a in [0, 1) and density d in [0, 1],
the forward composite d + a * (1 - d) never decreases d and keeps it in
[0, 1], and the revert max(0, (d - a) / (1 - a)) never increases d and
keeps it in [0, 1] — so density[i] stays in [0, 1] throughout a
generation, monotonically non-decreasing under forward composites and
non-increasing under reverts.  Every opacity the engine composites with
lies in [0.03 * 0.8, 0.5], well inside [0, 1); in applyColoredLine the
role of a is played by the per-channel maximum absorption
(1 - min channel) * opacity, which also lies in [0, opacity]. -/
theorem c8_density_invariant (a d : ℚ) (ha0 : 0 ≤ a) (ha1 : a < 1)
    (hd0 : 0 ≤ d) (hd1 : d ≤ 1) :
    d ≤ forwardDensity a d ∧ forwardDensity a d ≤ 1 ∧ 0 ≤ forwardDensity a d ∧
    revertDensity a d ≤ d ∧ 0 ≤ revertDensity a d ∧ revertDensity a d ≤ 1 := by
  unfold forwardDensity revertDensity
  have hpos : 0 < 1 - a := by linarith
  refine ⟨by nlinarith, by nlinarith, by nlinarith, ?_, le_max_left _ _, ?_⟩
  · refine max_le hd0 ?_
    rw [div_le_iff₀ hpos]
    nlinarith
  · refine max_le (by norm_num) ?_
    rw [div_le_one hpos]
    linarith

/-- Witness for claim C8 at the default thread opacity 0.12 and density 1/2. -/
theorem c8_witness :
    (0 ≤ (12 / 100 : ℚ)) ∧ ((12 / 100 : ℚ) < 1) ∧ (0 ≤ (1 / 2 : ℚ)) ∧
    ((1 / 2 : ℚ) ≤ 1) ∧
    ((1 / 2 : ℚ) ≤ forwardDensity (12 / 100) (1 / 2) ∧
      forwardDensity (12 / 100) (1 / 2) ≤ 1 ∧
      0 ≤ forwardDensity (12 / 100) (1 / 2) ∧
      revertDensity (12 / 100) (1 / 2) ≤ 1 / 2 ∧
      0 ≤ revertDensity (12 / 100) (1 / 2) ∧
      revertDensity (12 / 100) (1 / 2) ≤ 1) :=
  ⟨by norm_num, by norm_num, by norm_num, by norm_num,
    c8_density_invariant (12 / 100) (1 / 2) (by norm_num) (by norm_num)
      (by norm_num) (by norm_num)⟩

end StringArt
